import Mathlib

/-!
Verification of the core scan-and-annotate pipeline of the `listme`
annotation-comment scanner (repository `mathpn/rememberme`, file
`src/main.go`).

Go strings are modelled as lists of characters (`GoStr`); all code points
occurring in the verified scenarios are ASCII, where Go's byte-level
operations and the character-level model agree.  External collaborators
that live outside the repository (the `http.DetectContentType` sniffer,
the subprocess that runs `git blame`, the filesystem) are passed in as
explicit environment functions; everything else is transliterated from
the Go source.
-/

/-- Go strings, modelled as character lists. -/
abbrev GoStr := List Char

/-! ## Small models of Go standard-library string helpers used by the source -/

/-- Model of `strings.HasPrefix s p`. -/
def goHasPfx (s p : GoStr) : Bool := decide (s.take p.length = p)

/-- Model of `strings.TrimPrefix s p`. -/
def goTrimPfx (s p : GoStr) : GoStr :=
  if goHasPfx s p then s.drop p.length else s

/-- Model of `strings.Split s sep` for a one-character separator: splits at
every occurrence of `sep`, keeping empty fields (the result is never empty). -/
def goSplit (sep : Char) : GoStr → List GoStr
  | [] => [[]]
  | c :: rest =>
    if c = sep then [] :: goSplit sep rest
    else
      match goSplit sep rest with
      | w :: ws => (c :: w) :: ws
      | [] => [[c]]

/-- The six ASCII white-space characters recognised by `unicode.IsSpace`
(the only ones relevant here). -/
def isGoSpace (c : Char) : Bool :=
  c == ' ' || c == '\t' || c == '\n' || c == '\x0b' || c == '\x0c' || c == '\r'

/-- Splits off the longest non-white-space run at the head of the string. -/
def spanWord : GoStr → GoStr × GoStr
  | [] => ([], [])
  | c :: rest =>
    if isGoSpace c then ([], c :: rest)
    else ((c :: (spanWord rest).1), (spanWord rest).2)

theorem spanWord_snd_length_le (s : GoStr) : (spanWord s).2.length ≤ s.length := by
  induction s with
  | nil => simp [spanWord]
  | cons c rest ih =>
    simp only [spanWord]
    split
    · simp
    · exact le_trans ih (Nat.le_succ _)

/-- Model of `strings.Fields`: the maximal runs of non-white-space characters. -/
def goFields : GoStr → List GoStr
  | [] => []
  | c :: rest =>
    if isGoSpace c then goFields rest
    else (c :: (spanWord rest).1) :: goFields (spanWord rest).2
termination_by s => s.length
decreasing_by
  · simp
  · have := spanWord_snd_length_le rest
    simp; omega

/-- Model of `strings.Join ws " "`. -/
def joinSp (ws : List GoStr) : GoStr := List.intercalate [' '] ws

/-- Model of `strconv.ParseInt s 10 64`: `none` exactly when Go reports an
error (empty input, stray characters, or 64-bit overflow). -/
def parseDigitsAux : List Char → Nat → Option Nat
  | [], acc => some acc
  | c :: rest, acc =>
    if c.isDigit then parseDigitsAux rest (acc * 10 + (c.toNat - 48)) else none

/-- See `parseDigitsAux`; handles the optional sign and the int64 range check. -/
def goParseInt64 (s : GoStr) : Option Int :=
  match s with
  | [] => none
  | c :: rest =>
    let signDigits : Bool × List Char :=
      if c = '+' then (false, rest)
      else if c = '-' then (true, rest)
      else (false, c :: rest)
    match signDigits.2 with
    | [] => none
    | ds =>
      match parseDigitsAux ds 0 with
      | none => none
      | some v =>
        let i : Int := if signDigits.1 then -(v : Int) else (v : Int)
        if i < -(2 ^ 63) ∨ 2 ^ 63 - 1 < i then none else some i

/-! ## `truncateName` (main.go lines 93-112) -/

/-- `maxAuthorLength` constant of the source. -/
def maxAuthorLength : Int := 22

/-- The loop of `truncateName`, which walks the word list from the last word
to the first (here: over the reversed word list), replacing words by their
first character while `totalLen` exceeds `maxLength`.  `w.take 1` models
`string(words[i][0])` (words produced by `strings.Fields` are never empty). -/
def truncateWordsRev (totalLen maxLength : Int) : List GoStr → List GoStr
  | [] => []
  | w :: ws =>
    if totalLen > maxLength then
      (w.take 1) :: truncateWordsRev (totalLen - ((w.length : Int) - 2)) maxLength ws
    else
      w :: truncateWordsRev totalLen maxLength ws

/-- Model of `truncateName` (main.go lines 93-112): split into words, walk
from the last word backwards abbreviating while the running length exceeds
`maxLength`, reverse back, and join with single spaces. -/
def truncateName (name : GoStr) (maxLength : Int) : GoStr :=
  let totalLen : Int := name.length
  let words := goFields name
  let truncated := truncateWordsRev totalLen maxLength words.reverse
  joinSp truncated.reverse

/-! ## Blame data model and `BlameLine` (main.go lines 76-91) -/

/-- `LineBlame` struct: author and commit timestamp (0 = unknown). -/
structure LineBlame where
  Author : GoStr
  Timestamp : Int
deriving DecidableEq

/-- `GitBlame` struct: one `LineBlame` per line of the blamed file. -/
structure GitBlame where
  blames : List LineBlame
deriving DecidableEq

/-- Model of `(*GitBlame).BlameLine` (main.go lines 85-91): 1-based lookup,
error outside `[1, len]`. -/
def BlameLine (b : GitBlame) (line : Int) : Except GoStr LineBlame :=
  let l := line - 1
  if h : l < 0 ∨ (b.blames.length : Int) ≤ l then
    .error ("line out of range".toList)
  else
    .ok (b.blames.get ⟨l.toNat, by omega⟩)

/-! ## `parseGitBlame` (main.go lines 115-147) -/

/-- The `"author "` record prefix of `git blame --line-porcelain` output. -/
def authorPfx : GoStr := "author ".toList

/-- The `"author-time "` record prefix. -/
def timePfx : GoStr := "author-time ".toList

/-- One step of the `parseGitBlame` scan loop.  State: the accumulated
records and the in-progress record (`currentBlame`, `none` before the first
author line). -/
def pgbStep (st : List LineBlame × Option LineBlame) (buf : GoStr) :
    List LineBlame × Option LineBlame :=
  if goHasPfx buf authorPfx then
    (st.1 ++ st.2.toList,
     some { Author := truncateName (goTrimPfx buf authorPfx) maxAuthorLength,
            Timestamp := 0 })
  else if goHasPfx buf timePfx then
    match st.2 with
    | some cb =>
      (st.1, some { cb with
        Timestamp := (goParseInt64 (goTrimPfx buf timePfx)).getD cb.Timestamp })
    | none => st
  else st

/-- Model of `parseGitBlame` (main.go lines 115-147): scan the porcelain
stream line by line, start a new record at each author line, update the
current record's timestamp at each `author-time` line, and flush the final
in-progress record at end of stream. -/
def parseGitBlame (ls : List GoStr) : List LineBlame :=
  let st := ls.foldl pgbStep ([], none)
  st.1 ++ st.2.toList

/-! ## A model of Go's `regexp` engine (leftmost-first, Perl-like semantics)

The Go standard library compiles the marker pattern with `regexp.Compile`
and applies it with `FindSubmatch`.  The engine below is a backtracking
matcher with the same observable semantics for the pattern at hand:
alternations are tried left to right, greedy operators prefer the longer
match, lazy operators the shorter, a starred sub-pattern never iterates
without consuming input, and the search returns the match starting at the
leftmost possible position.  The recursion is bounded by an explicit fuel
parameter that is ample for every evaluation performed here. -/

/-- Regular-expression ASTs: exactly the constructs used by the marker
pattern of `parseArgs` (main.go lines 149-159). -/
inductive Re where
  | eps : Re
  | pred : (Char → Bool) → Re
  | cat : Re → Re → Re
  | alt : Re → Re → Re
  | star : Bool → Re → Re
  | grp : Nat → Re → Re
  | bol : Re
  | eol : Re
  | wordb : Re

/-- The two capture-group slots of the marker pattern. -/
structure Caps where
  g1 : Option (Nat × Nat)
  g2 : Option (Nat × Nat)
deriving DecidableEq

/-- Record the span of capture group `n`. -/
def setG (n : Nat) (i j : Nat) (c : Caps) : Caps :=
  if n = 1 then { c with g1 := some (i, j) } else { c with g2 := some (i, j) }

/-- Is the character at position `i` (if any) a word character (`\w`)? -/
def isWordAt (s : List Char) (i : Nat) : Bool :=
  match s.get? i with
  | some c => c.isAlphanum || c == '_'
  | none => false

/-- The backtracking matcher in continuation-passing style.  `i` is the
current position in `s`, `caps` the capture state, `k` the continuation;
multi-line anchors `^`/`$` match at the ends of `s` and around `\n` (the
source pattern sets the `(?m)` flag). -/
def bt (s : List Char) : Nat → Re → Nat → Caps → (Nat → Caps → Option Caps) → Option Caps
  | 0, _, _, _, _ => none
  | fu + 1, re, i, caps, k =>
    match re with
    | .eps => k i caps
    | .pred p =>
      match s.get? i with
      | some c => if p c then k (i + 1) caps else none
      | none => none
    | .cat a b => bt s fu a i caps (fun j c2 => bt s fu b j c2 k)
    | .alt a b =>
      match bt s fu a i caps k with
      | some r => some r
      | none => bt s fu b i caps k
    | .star g a =>
      let once := fun (_ : Unit) =>
        bt s fu a i caps (fun j c2 =>
          if j = i then none else bt s fu (.star g a) j c2 k)
      if g then
        match once () with
        | some r => some r
        | none => k i caps
      else
        match k i caps with
        | some r => some r
        | none => once ()
    | .grp n a => bt s fu a i caps (fun j c2 => k j (setG n i j c2))
    | .bol => if i = 0 ∨ s.get? (i - 1) = some '\n' then k i caps else none
    | .eol => if i = s.length ∨ s.get? i = some '\n' then k i caps else none
    | .wordb =>
      if (if i = 0 then false else isWordAt s (i - 1)) ≠ isWordAt s i then
        k i caps
      else none

/-- Fuel bound for a single match attempt: generous for the inputs at hand. -/
def btFuel (s : List Char) : Nat := 64 * s.length + 1024

/-- One anchored match attempt at position `start`. -/
def btRun (re : Re) (s : List Char) (start : Nat) : Option Caps :=
  bt s (btFuel s) re start ⟨none, none⟩ (fun _ c => some c)

/-- Try successive start positions (leftmost match wins). -/
def goFindFrom (re : Re) (s : List Char) : Nat → Nat → Option Caps
  | 0, _ => none
  | r + 1, start =>
    match btRun re s start with
    | some c => some c
    | none => goFindFrom re s r (start + 1)

/-- Model of `regex.FindSubmatch` restricted to the two capture groups of
the marker pattern: `some (tag, text)` exactly when the pattern matches
(a successful match always fills both groups here, so this corresponds to
the `len(match) >= 3` test of the worker). -/
def goFindSubmatch (re : Re) (s : GoStr) : Option (GoStr × GoStr) :=
  match goFindFrom re s (s.length + 1) 0 with
  | none => none
  | some caps =>
    match caps.g1, caps.g2 with
    | some (a, b), some (c, d) => some ((s.drop a).take (b - a), (s.drop c).take (d - c))
    | _, _ => none

/-! ## The marker pattern of `parseArgs` (main.go lines 149-159)

Transliteration of the format string

`(?m)(?:^|\s*(?:(?:#+|//+|<!--|--|/*|"""|''')+\s*)+)\s*(?:^|\b)(TAGS)[\s:;-]+(.+?)(?:$|-->|#\x7d\x7d|\*/|--\x7d\x7d|\x7d\x7d|#+|#\x7d|"""|''')*$`

with TAGS = `BUG|FIXME|XXX|TODO|HACK|OPTIMIZE|NOTE` (the `tags` variable).
Note that the unescaped `/*` alternative means "zero or more slashes" and
`\*/` is the literal two-character string star-slash. -/

/-- Sequential composition of a pattern list. -/
def reSeq : List Re → Re
  | [] => .eps
  | [r] => r
  | r :: rs => .cat r (reSeq rs)

/-- Left-to-right alternation of a pattern list. -/
def reAlts : List Re → Re
  | [] => .eps
  | [r] => r
  | r :: rs => .alt r (reAlts rs)

/-- Single-character literal. -/
def litc (c : Char) : Re := .pred (fun x => x == c)

/-- Literal string. -/
def strRe (cs : List Char) : Re := reSeq (cs.map litc)

/-- `r+` with the given greediness. -/
def plusRe (g : Bool) (r : Re) : Re := .cat r (.star g r)

/-- Go regexp `\s` class: `[\t\n\x0c\r ]`. -/
def isReSpace (c : Char) : Bool :=
  c == '\t' || c == '\n' || c == '\x0c' || c == '\r' || c == ' '

/-- `\s` as a pattern. -/
def spaceRe : Re := .pred isReSpace

/-- `.` (any character but newline). -/
def dotRe : Re := .pred (fun c => c != '\n')

/-- The `[\s:;-]` separator class. -/
def sepRe : Re := .pred (fun c => isReSpace c || c == ':' || c == ';' || c == '-')

/-- The apostrophe character. -/
def apos : Char := Char.ofNat 39

/-- The closing-brace character. -/
def rbrc : Char := Char.ofNat 125

/-- The comment-leader alternation `#+|//+|<!--|--|/*|"""|'''`. -/
def leadersRe : Re := reAlts [
  plusRe true (litc '#'),
  .cat (litc '/') (plusRe true (litc '/')),
  strRe ['<', '!', '-', '-'],
  strRe ['-', '-'],
  .star true (litc '/'),
  strRe ['"', '"', '"'],
  strRe [apos, apos, apos]]

/-- The prefix alternation `(?:^|\s*(?:(?:LEADERS)+\s*)+)`. -/
def prefixRe : Re :=
  .alt .bol
    (reSeq [.star true spaceRe,
            plusRe true (reSeq [plusRe true leadersRe, .star true spaceRe])])

/-- The configured marker tags (the `tags` variable, main.go line 30). -/
def tags : List GoStr :=
  ["BUG".toList, "FIXME".toList, "XXX".toList, "TODO".toList,
   "HACK".toList, "OPTIMIZE".toList, "NOTE".toList]

/-- Capture group 1: the tag alternation. -/
def tagsRe : Re := reAlts (tags.map strRe)

/-- The trailing-closer alternation `$|-->|#\x7d\x7d|\*/|--\x7d\x7d|\x7d\x7d|#+|#\x7d|"""|'''`. -/
def trailerRe : Re := reAlts [
  .eol,
  strRe ['-', '-', '>'],
  strRe ['#', rbrc, rbrc],
  strRe ['*', '/'],
  strRe ['-', '-', rbrc, rbrc],
  strRe [rbrc, rbrc],
  plusRe true (litc '#'),
  strRe ['#', rbrc],
  strRe ['"', '"', '"'],
  strRe [apos, apos, apos]]

/-- The whole compiled marker pattern of `parseArgs`. -/
def markerRe : Re := reSeq [
  prefixRe,
  .star true spaceRe,
  .alt .bol .wordb,
  .grp 1 tagsRe,
  plusRe true sepRe,
  .grp 2 (.cat dotRe (.star false dotRe)),
  .star true trailerRe,
  .eol]

/-- Applying the compiled marker pattern to one line, as the worker does. -/
def markerMatch (line : GoStr) : Option (GoStr × GoStr) := goFindSubmatch markerRe line

/-! ## Scan data model (main.go lines 202-226) -/

/-- `matchLine` struct: 1-based line number, matched tag, trailing text. -/
structure matchLine where
  n : Int
  tag : GoStr
  text : GoStr
deriving DecidableEq

/-- `searchResult` struct: path and the matched lines of one file. -/
structure searchResult where
  Path : GoStr
  Lines : List matchLine
deriving DecidableEq

/-- `searchJob` struct: path plus the compiled marker pattern. -/
structure SearchJob where
  path : GoStr
  regex : Re

/-- The MIME string `"text/plain"`. -/
def textPlain : GoStr := "text/plain".toList

/-- The per-file scan loop of `searchWorker` (main.go lines 435-452):
`detect` models the external `http.DetectContentType`; a line whose sniffed
MIME type (before any `;` parameter) is not `text/plain` stops the scan of
the file; otherwise the marker pattern is applied and a match is recorded
with the current 1-based line counter. -/
def scanLoop (matchFn : GoStr → Option (GoStr × GoStr)) (detect : GoStr → GoStr) :
    List GoStr → Int → List matchLine
  | [], _ => []
  | text :: rest, line =>
    if (goSplit ';' (detect text)).headD [] ≠ textPlain then []
    else
      match matchFn text with
      | some (tag, txt) =>
        ⟨line, tag, txt⟩ :: scanLoop matchFn detect rest (line + 1)
      | none => scanLoop matchFn detect rest (line + 1)

/-! ## The scan worker (main.go lines 410-459) -/

/-- The part of `os.FileInfo` the worker consults. -/
structure FileInfo where
  isDir : Bool
deriving DecidableEq

/-- Outcome of `os.Stat`: success, a not-exist error, or another error. -/
inductive StatRes where
  | ok : FileInfo → StatRes
  | errNotExist : StatRes
  | errOther : StatRes
deriving DecidableEq

/-- The worker's external environment: the filesystem (`os.Stat`,
`os.Open` + line splitting by `bufio.Scanner`), the content sniffer and the
optional gitignore matcher (`nil` when no repository was found). -/
structure WorkerEnv where
  stat : GoStr → StatRes
  openF : GoStr → Option (List GoStr)
  detect : GoStr → GoStr
  matcher : Option (List GoStr → Bool → Bool)

/-- How the worker goroutine left its `for job := range jobs` loop:
`drained` (channel exhausted), `returned` (the bare `return` on a stat
error), or `fatal` (`log.Fatalf` on an open error, which kills the whole
process). -/
inductive WorkerExit where
  | drained : WorkerExit
  | returned : WorkerExit
  | fatal : WorkerExit
deriving DecidableEq

/-- Observable effects of one worker: emitted results, operator-stream
messages, number of `wg.Done()` calls, and how the loop ended. -/
structure WorkerOut where
  results : List searchResult
  msgs : List GoStr
  done : Nat
  exit : WorkerExit
deriving DecidableEq

/-- Diagnostic printed for a vanished file. -/
def msgNotExist (p : GoStr) : GoStr := p ++ " does not exist.".toList

/-- Diagnostic printed for any other stat failure. -/
def msgStatErr (p : GoStr) : GoStr := "Error checking ".toList ++ p

/-- Model of `searchWorker` (main.go lines 410-459) on the sequence of jobs
the worker receives from the job channel.  Faithful to the source: a stat
error prints a diagnostic and `return`s from the goroutine (no `wg.Done`,
remaining jobs are not consumed); a gitignore hit calls `wg.Done` and
continues; an open failure is `log.Fatalf`; otherwise the file is scanned
and a result is emitted exactly when at least one line matched. -/
def searchWorker (env : WorkerEnv) : List SearchJob → WorkerOut
  | [] => ⟨[], [], 0, .drained⟩
  | job :: rest =>
    match env.stat job.path with
    | .errNotExist => ⟨[], [msgNotExist job.path], 0, .returned⟩
    | .errOther => ⟨[], [msgStatErr job.path], 0, .returned⟩
    | .ok info =>
      let pathList := goSplit '/' job.path
      if (match env.matcher with
          | some m => m pathList info.isDir
          | none => false) then
        let o := searchWorker env rest
        ⟨o.results, o.msgs, o.done + 1, o.exit⟩
      else
        match env.openF job.path with
        | none => ⟨[], [], 0, .fatal⟩
        | some content =>
          let lines := scanLoop (goFindSubmatch job.regex) env.detect content 1
          let o := searchWorker env rest
          ⟨(if lines.length > 0 then [⟨job.path, lines⟩] else []) ++ o.results,
           o.msgs, o.done + 1, o.exit⟩

/-! ## The directory walker callback (main.go lines 396-408) -/

/-- The kind of a filesystem entry as reported by `fs.DirEntry`. -/
inductive FileKind where
  | dir : FileKind
  | regular : FileKind
  | symlink : FileKind
  | device : FileKind
  | namedPipe : FileKind
  | socket : FileKind
deriving DecidableEq

/-- The part of `fs.DirEntry` the walker consults. -/
structure DirEntry where
  kind : FileKind
deriving DecidableEq

/-- `d.IsDir()`. -/
def DirEntry.IsDir (d : DirEntry) : Bool := d.kind == .dir

/-- Is the entry a regular file? -/
def DirEntry.isRegular (d : DirEntry) : Bool := d.kind == .regular

/-- Model of the `walk` callback (main.go lines 396-408): on a traversal
error the error is propagated (aborting `filepath.WalkDir`); otherwise a
job is enqueued for every entry that is not a directory.  Returns the
propagated error and the enqueued jobs. -/
def walk (regex : Re) (path : GoStr) (d : DirEntry) (err : Option GoStr) :
    Option GoStr × List SearchJob :=
  match err with
  | some e => (some e, [])
  | none =>
    if ¬ d.IsDir then (none, [⟨path, regex⟩])
    else (none, [])

/-! ## The result sink `PrintResult` (main.go lines 372-394) -/

/-- One unit of presentation output.  The lipgloss styling, emoji table and
age colouring of the source are display-only transformations of the same
data; a `matched` line carries `some` blame exactly when the source prints
the blame string (`gb_err == nil && err == nil`). -/
inductive OutLine where
  | header : GoStr → Nat → OutLine
  | matched : Int → GoStr → GoStr → Option LineBlame → OutLine
  | blank : OutLine
deriving DecidableEq

/-- Model of the body of `PrintResult` for one received result
(main.go lines 372-394).  `blameFn` models `BlameFile`, the blocking
`git blame` subprocess invocation: `.error` when the tool exits non-zero
(untracked file, no repository, missing tool). -/
def printResult (blameFn : GoStr → Except GoStr GitBlame) (r : searchResult) :
    List OutLine :=
  let gb := blameFn r.Path
  OutLine.header r.Path r.Lines.length ::
    (r.Lines.map fun line =>
      match gb with
      | .ok g =>
        match BlameLine g line.n with
        | .ok bl => OutLine.matched line.n line.tag line.text (some bl)
        | .error _ => OutLine.matched line.n line.tag line.text none
      | .error _ => OutLine.matched line.n line.tag line.text none)
    ++ [OutLine.blank]

/-- The full `PrintResult` loop over every result received from the
result channel. -/
def printAll (blameFn : GoStr → Except GoStr GitBlame) :
    List searchResult → List OutLine
  | [] => []
  | r :: rs => printResult blameFn r ++ printAll blameFn rs

/-! ## Structural lemmas about the per-file scan loop -/

theorem scanLoop_mem_bound (mf : GoStr → Option (GoStr × GoStr))
    (det : GoStr → GoStr) (ls : List GoStr) :
    ∀ (k : Int) (m : matchLine), m ∈ scanLoop mf det ls k →
      k ≤ m.n ∧ m.n < k + ls.length := by
  induction ls with
  | nil => intro k m h; simp [scanLoop] at h
  | cons text rest ih =>
    intro k m h
    simp only [scanLoop] at h
    split at h
    · simp at h
    · cases hmf : mf text with
      | none =>
        rw [hmf] at h
        have := ih (k + 1) m h
        simp only [List.length_cons]
        push_cast at *
        omega
      | some p =>
        obtain ⟨t1, t2⟩ := p
        rw [hmf] at h
        rcases List.mem_cons.mp h with h1 | h1
        · subst h1
          simp only [List.length_cons]
          push_cast
          omega
        · have := ih (k + 1) m h1
          simp only [List.length_cons]
          push_cast at *
          omega

theorem scanLoop_pairwise (mf : GoStr → Option (GoStr × GoStr))
    (det : GoStr → GoStr) (ls : List GoStr) :
    ∀ k : Int, (scanLoop mf det ls k).Pairwise (fun a b => a.n < b.n) := by
  induction ls with
  | nil => intro k; simp [scanLoop]
  | cons text rest ih =>
    intro k
    simp only [scanLoop]
    split
    · simp
    · cases hmf : mf text with
      | none => exact ih (k + 1)
      | some p =>
        obtain ⟨t1, t2⟩ := p
        refine List.Pairwise.cons ?_ (ih (k + 1))
        intro b hb
        have := scanLoop_mem_bound mf det rest (k + 1) b hb
        simp only
        omega

theorem scanLoop_append (mf : GoStr → Option (GoStr × GoStr))
    (det : GoStr → GoStr) (xs ys : List GoStr) :
    ∀ k : Int, (∀ l ∈ xs, (goSplit ';' (det l)).headD [] = textPlain) →
      scanLoop mf det (xs ++ ys) k =
        scanLoop mf det xs k ++ scanLoop mf det ys (k + xs.length) := by
  induction xs with
  | nil => intro k _; simp [scanLoop]
  | cons x xs ih =>
    intro k hx
    have hhead : (goSplit ';' (det x)).headD [] = textPlain := hx x (by simp)
    have htail : ∀ l ∈ xs, (goSplit ';' (det l)).headD [] = textPlain :=
      fun l hl => hx l (by simp [hl])
    have harith : k + 1 + (xs.length : Int) = k + ((x :: xs).length : Int) := by
      simp only [List.length_cons]; push_cast; ring
    simp only [List.cons_append, scanLoop, List.append_eq,
      if_neg (not_ne_iff.mpr hhead)]
    cases hmf : mf x with
    | none => rw [ih (k + 1) htail, harith]
    | some p =>
      obtain ⟨t1, t2⟩ := p
      rw [ih (k + 1) htail, harith]
      rfl

theorem scanLoop_eq_nil_of_no_match (mf : GoStr → Option (GoStr × GoStr))
    (det : GoStr → GoStr) (ls : List GoStr)
    (h : ∀ l ∈ ls, mf l = none) : ∀ k : Int, scanLoop mf det ls k = [] := by
  induction ls with
  | nil => intro k; simp [scanLoop]
  | cons x xs ih =>
    intro k
    simp only [scanLoop]
    split
    · rfl
    · rw [h x (by simp)]
      exact ih (fun l hl => h l (by simp [hl])) (k + 1)

/-! ## Claim C2: scanning a `// TODO: fix this` line -/

/-- The line of the spec scenario. -/
def todoLine : GoStr := "// TODO: fix this".toList

set_option maxRecDepth 16384 in
theorem markerMatch_todo :
    markerMatch todoLine = some ("TODO".toList, "fix this".toList) := by decide

/-- C2: in any file in which line `pre.length + 1` is `// TODO: fix this`
and every line up to it passes the plain-text sniff, the worker scan
produces, for that line, exactly one `matchLine`, with tag `TODO` and text
`fix this` (the `: ` separator is not part of the text). -/
theorem todo_line_scan (detect : GoStr → GoStr) (pre post : List GoStr)
    (hpre : ∀ l ∈ pre, (goSplit ';' (detect l)).headD [] = textPlain)
    (ht : (goSplit ';' (detect todoLine)).headD [] = textPlain) :
    (scanLoop markerMatch detect (pre ++ todoLine :: post) 1).filter
        (fun m => m.n = (pre.length : Int) + 1) =
      [⟨(pre.length : Int) + 1, "TODO".toList, "fix this".toList⟩] := by
  rw [scanLoop_append markerMatch detect pre (todoLine :: post) 1 hpre,
    List.filter_append]
  have hk : (1 : Int) + (pre.length : Int) = (pre.length : Int) + 1 := by ring
  rw [hk]
  have h1 : (scanLoop markerMatch detect pre 1).filter
      (fun m => m.n = (pre.length : Int) + 1) = [] := by
    rw [List.filter_eq_nil_iff]
    intro m hm
    have := scanLoop_mem_bound markerMatch detect pre 1 m hm
    simp only [decide_eq_true_eq]
    omega
  have h2 : scanLoop markerMatch detect (todoLine :: post) ((pre.length : Int) + 1) =
      ⟨(pre.length : Int) + 1, "TODO".toList, "fix this".toList⟩ ::
        scanLoop markerMatch detect post ((pre.length : Int) + 1 + 1) := by
    simp only [scanLoop, if_neg (not_ne_iff.mpr ht), markerMatch_todo]
  rw [h1, h2, List.nil_append, List.filter_cons_of_pos (by simp)]
  have h3 : (scanLoop markerMatch detect post ((pre.length : Int) + 1 + 1)).filter
      (fun m => m.n = (pre.length : Int) + 1) = [] := by
    rw [List.filter_eq_nil_iff]
    intro m hm
    have := scanLoop_mem_bound markerMatch detect post ((pre.length : Int) + 1 + 1) m hm
    simp only [decide_eq_true_eq]
    omega
  rw [h3]

/-- A content sniffer that reports `text/plain` for every line. -/
def detectPlain : GoStr → GoStr := fun _ => textPlain

/-- Witness for C2 at a concrete file. -/
theorem todo_line_scan_witness :
    (scanLoop markerMatch detectPlain (([] : List GoStr) ++ todoLine :: []) 1).filter
        (fun m => m.n = ((([] : List GoStr).length : Int)) + 1) =
      [⟨((([] : List GoStr).length : Int)) + 1, "TODO".toList, "fix this".toList⟩] :=
  todo_line_scan detectPlain [] [] (by simp) (by decide)

/-! ## Claim C5: the scan stops at the first non-text line -/

/-- C5: if every line of `pre` sniffs as plain text and line `b` does not,
then scanning `pre ++ b :: post` examines nothing past `b` (the result
equals the scan of `pre` alone, whatever `post` holds), and a file whose
first line sniffs as non-text yields no matches at all. -/
theorem scan_stops_at_binary (mf : GoStr → Option (GoStr × GoStr))
    (detect : GoStr → GoStr) (pre post : List GoStr) (b : GoStr) (k : Int)
    (hpre : ∀ l ∈ pre, (goSplit ';' (detect l)).headD [] = textPlain)
    (hb : (goSplit ';' (detect b)).headD [] ≠ textPlain) :
    scanLoop mf detect (pre ++ b :: post) k = scanLoop mf detect pre k ∧
    scanLoop mf detect (b :: post) k = [] := by
  have hstop : ∀ k2 : Int, scanLoop mf detect (b :: post) k2 = [] := by
    intro k2
    simp only [scanLoop]
    rw [if_pos hb]
  refine ⟨?_, hstop k⟩
  induction pre generalizing k with
  | nil => simpa using hstop k
  | cons x xs ih =>
    have hhead : (goSplit ';' (detect x)).headD [] = textPlain := hpre x (by simp)
    simp only [List.cons_append, scanLoop, List.append_eq,
      if_neg (not_ne_iff.mpr hhead)]
    cases hmf : mf x with
    | none => exact ih (k + 1) (fun l hl => hpre l (by simp [hl]))
    | some p =>
      obtain ⟨t1, t2⟩ := p
      rw [ih (k + 1) (fun l hl => hpre l (by simp [hl]))]

/-- A sniffer that flags one specific line as binary. -/
def detectBinLine (bad : GoStr) : GoStr → GoStr :=
  fun l => if l = bad then "application/octet-stream".toList else textPlain

/-- Witness for C5 at a concrete file whose second line sniffs as binary. -/
theorem scan_stops_at_binary_witness :
    scanLoop markerMatch (detectBinLine ("BIN".toList))
        (["ok".toList] ++ "BIN".toList :: [todoLine]) 1 =
      scanLoop markerMatch (detectBinLine ("BIN".toList)) ["ok".toList] 1 ∧
    scanLoop markerMatch (detectBinLine ("BIN".toList))
        ("BIN".toList :: [todoLine]) 1 = [] :=
  scan_stops_at_binary markerMatch (detectBinLine ("BIN".toList))
    ["ok".toList] [todoLine] ("BIN".toList) 1 (by decide) (by decide)

/-! ## Claim C3: at most one match per line, strictly increasing line numbers -/

/-- C3: every result the worker emits has its matched lines in strictly
increasing 1-based line-number order; in particular no two matched lines
share a line number, i.e. each source line yields at most one `matchLine`
however many tag words it contains. -/
theorem worker_lines_strictly_increasing (env : WorkerEnv) (jobs : List SearchJob)
    (r : searchResult) (hr : r ∈ (searchWorker env jobs).results) :
    r.Lines.Pairwise (fun a b => a.n < b.n) := by
  induction jobs with
  | nil => simp [searchWorker] at hr
  | cons job rest ih =>
    simp only [searchWorker] at hr
    split at hr
    · simp at hr
    · simp at hr
    · split at hr
      · exact ih hr
      · split at hr
        · simp at hr
        · rcases List.mem_append.mp hr with h1 | h1
          · split at h1
            · rcases List.mem_singleton.mp h1 with h2
              subst h2
              exact scanLoop_pairwise _ env.detect _ 1
            · simp at h1
          · exact ih h1

/-- A simple two-group pattern (first character, second character). -/
def pairRe : Re :=
  .cat (.grp 1 (.pred fun _ => true)) (.grp 2 (.pred fun _ => true))

/-- A worker environment over a one-file filesystem whose content is `ab`. -/
def envEx : WorkerEnv :=
  { stat := fun _ => .ok ⟨false⟩
    openF := fun _ => some ["ab".toList]
    detect := fun _ => textPlain
    matcher := none }

/-- The job for that file. -/
def jobEx : SearchJob := ⟨"f".toList, pairRe⟩

/-- The result the worker emits for it. -/
def rEx : searchResult := ⟨"f".toList, [⟨1, "a".toList, "b".toList⟩]⟩

/-- Witness for C3 at a concrete worker run. -/
theorem worker_lines_strictly_increasing_witness :
    rEx.Lines.Pairwise (fun a b => a.n < b.n) :=
  worker_lines_strictly_increasing envEx [jobEx] rEx (by decide)

/-! ## Claim C4: a result is emitted iff the match list is non-empty -/

/-- C4: for a job whose file stats, is not ignored, and opens with content
`content`, the worker emits a result exactly when the accumulated match
list is non-empty; a file none of whose lines matches the pattern yields
no result at all. -/
theorem result_emitted_iff_matches (env : WorkerEnv) (j : SearchJob)
    (info : FileInfo) (content : List GoStr)
    (hstat : env.stat j.path = .ok info)
    (hig : (match env.matcher with
            | some m => m (goSplit '/' j.path) info.isDir
            | none => false) = false)
    (hopen : env.openF j.path = some content) :
    ((searchWorker env [j]).results ≠ [] ↔
      scanLoop (goFindSubmatch j.regex) env.detect content 1 ≠ []) ∧
    ((∀ l ∈ content, goFindSubmatch j.regex l = none) →
      (searchWorker env [j]).results = []) := by
  have hw : searchWorker env [j] =
      ⟨(if (scanLoop (goFindSubmatch j.regex) env.detect content 1).length > 0 then
          [⟨j.path, scanLoop (goFindSubmatch j.regex) env.detect content 1⟩]
        else []) ++ (searchWorker env []).results,
       (searchWorker env []).msgs, (searchWorker env []).done + 1,
       (searchWorker env []).exit⟩ := by
    simp only [searchWorker, hstat, hig, hopen, Bool.false_eq_true, if_false]
  constructor
  · rw [hw]
    simp only [searchWorker, List.append_nil]
    by_cases hms : scanLoop (goFindSubmatch j.regex) env.detect content 1 = []
    · simp [hms]
    · have : (scanLoop (goFindSubmatch j.regex) env.detect content 1).length > 0 :=
        List.length_pos.mpr hms
      simp [this, hms]
  · intro hnone
    rw [hw]
    rw [scanLoop_eq_nil_of_no_match (goFindSubmatch j.regex) env.detect content hnone 1]
    simp [searchWorker]

/-- Witness for C4 at the concrete one-file environment. -/
theorem result_emitted_iff_matches_witness :
    ((searchWorker envEx [jobEx]).results ≠ [] ↔
      scanLoop (goFindSubmatch jobEx.regex) envEx.detect ["ab".toList] 1 ≠ []) ∧
    ((∀ l ∈ (["ab".toList] : List GoStr), goFindSubmatch jobEx.regex l = none) →
      (searchWorker envEx [jobEx]).results = []) :=
  result_emitted_iff_matches envEx jobEx ⟨false⟩ ["ab".toList]
    (by decide) (by decide) (by decide)

/-! ## Claim C1: per-file stat/open failures are not contained -/

/-- Filesystem in which `gone.go` cannot be stat'ed but `ok.go` is a
text file containing one TODO line. -/
def envStatErr : WorkerEnv :=
  { stat := fun p => if p = "gone.go".toList then .errOther else .ok ⟨false⟩
    openF := fun _ => some [todoLine]
    detect := fun _ => textPlain
    matcher := none }

/-- Filesystem in which every file stats but none can be opened. -/
def envOpenErr : WorkerEnv :=
  { stat := fun _ => .ok ⟨false⟩
    openF := fun _ => none
    detect := fun _ => textPlain
    matcher := none }

/-- The job for the vanished file. -/
def jobGone : SearchJob := ⟨"gone.go".toList, markerRe⟩

/-- The job for the healthy file. -/
def jobOk : SearchJob := ⟨"ok.go".toList, markerRe⟩

set_option maxRecDepth 16384 in
/-- C1 (behaviour of the code at the failing inputs): when the first job's
path fails `os.Stat`, the worker `return`s — it emits nothing (the second
file's result, which the worker alone would have produced, is lost), makes
no `wg.Done` call for either job, and stops consuming jobs; and when a
file cannot be opened, the worker hits `log.Fatalf`, terminating the whole
process.  This contradicts the claimed containment. -/
theorem worker_failure_not_contained :
    (searchWorker envStatErr [jobGone, jobOk]).results = [] ∧
    (searchWorker envStatErr [jobGone, jobOk]).exit = .returned ∧
    (searchWorker envStatErr [jobGone, jobOk]).done = 0 ∧
    (searchWorker envStatErr [jobOk]).results =
      [⟨"ok.go".toList, [⟨1, "TODO".toList, "fix this".toList⟩]⟩] ∧
    (searchWorker envOpenErr [jobOk]).exit = .fatal ∧
    (searchWorker envOpenErr [jobOk]).done = 0 := by
  refine ⟨rfl, rfl, rfl, ?_, rfl, rfl⟩
  decide

/-! ## Claim C6: blame-record reconstruction -/

theorem pgb_foldl_length (ls : List GoStr) :
    ∀ (acc : List LineBlame) (cur : Option LineBlame),
      (ls.foldl pgbStep (acc, cur)).1.length +
        (ls.foldl pgbStep (acc, cur)).2.toList.length =
      acc.length + cur.toList.length +
        ls.countP (fun l => goHasPfx l authorPfx) := by
  induction ls with
  | nil => intro acc cur; simp
  | cons x ls ih =>
    intro acc cur
    rw [List.foldl_cons, List.countP_cons]
    cases hx : goHasPfx x authorPfx with
    | true =>
      simp only [pgbStep, hx, if_true]
      rw [ih]
      simp
      omega
    | false =>
      simp only [pgbStep, hx, Bool.false_eq_true, if_false]
      cases ht : goHasPfx x timePfx with
      | true =>
        simp only [ht, if_true]
        cases cur with
        | none => rw [ih]; simp [hx]
        | some cb => rw [ih]; simp [hx]
      | false =>
        simp only [ht, Bool.false_eq_true, if_false]
        rw [ih]
        simp [hx]

theorem pgb_foldl_ts_zero (ls : List GoStr)
    (hls : ∀ l ∈ ls, goHasPfx l timePfx = false) :
    ∀ (acc : List LineBlame) (cur : Option LineBlame),
      (∀ b ∈ acc, b.Timestamp = 0) → (∀ b ∈ cur.toList, b.Timestamp = 0) →
      ∀ b ∈ (ls.foldl pgbStep (acc, cur)).1 ++ (ls.foldl pgbStep (acc, cur)).2.toList,
        b.Timestamp = 0 := by
  induction ls with
  | nil =>
    intro acc cur hacc hcur b hb
    rcases List.mem_append.mp hb with h | h
    · exact hacc b h
    · exact hcur b h
  | cons x ls ih =>
    intro acc cur hacc hcur b hb
    rw [List.foldl_cons] at hb
    have hxt : goHasPfx x timePfx = false := hls x (by simp)
    have hlst : ∀ l ∈ ls, goHasPfx l timePfx = false :=
      fun l hl => hls l (by simp [hl])
    cases hx : goHasPfx x authorPfx with
    | true =>
      refine ih hlst (acc ++ cur.toList)
        (some { Author := truncateName (goTrimPfx x authorPfx) maxAuthorLength,
                Timestamp := 0 }) ?_ ?_ b ?_
      · intro b2 hb2
        rcases List.mem_append.mp hb2 with h | h
        · exact hacc b2 h
        · exact hcur b2 h
      · intro b2 hb2
        simp only [Option.toList_some, List.mem_singleton] at hb2
        subst hb2
        rfl
      · simpa only [pgbStep, hx, if_true] using hb
    | false =>
      exact ih hlst acc cur hacc hcur b
        (by simpa only [pgbStep, hx, hxt, Bool.false_eq_true, if_false] using hb)

/-- C6: the parser produces exactly one record per `author ` line of the
blame stream — each author line starts a new record and the final
in-progress record is flushed at end of stream, so a stream ending right
after its last record keeps that record — and in a stream with no
`author-time ` line every record's timestamp stays zero (unknown). -/
theorem parseGitBlame_records (ls : List GoStr) :
    (parseGitBlame ls).length = ls.countP (fun l => goHasPfx l authorPfx) ∧
    ((∀ l ∈ ls, goHasPfx l timePfx = false) →
      ∀ b ∈ parseGitBlame ls, b.Timestamp = 0) := by
  constructor
  · have := pgb_foldl_length ls [] none
    simpa [parseGitBlame] using this
  · intro hls b hb
    exact pgb_foldl_ts_zero ls hls [] none (by simp) (by simp) b hb

/-- A concrete porcelain stream whose last record has no timestamp line
and no trailing separator. -/
def pgbEx : List GoStr :=
  ["author Ada Lovelace".toList, "filename x.go".toList,
   "author Alan Turing".toList]

/-- Witness for C6 at the concrete stream. -/
theorem parseGitBlame_records_witness :
    (parseGitBlame pgbEx).length = pgbEx.countP (fun l => goHasPfx l authorPfx) ∧
    ((∀ l ∈ pgbEx, goHasPfx l timePfx = false) →
      ∀ b ∈ parseGitBlame pgbEx, b.Timestamp = 0) :=
  parseGitBlame_records pgbEx

/-! ## Claim C7: `BlameLine` range checking -/

/-- C7: looking up line `n` of a `FileBlame` fails exactly when `n` lies
outside `[1, len]`, and an in-range lookup returns the entry stored at
index `n - 1` — never a silent default. -/
theorem BlameLine_range (b : GitBlame) (n : Int) :
    ((∃ e, BlameLine b n = .error e) ↔
      (n < 1 ∨ (b.blames.length : Int) < n)) ∧
    (∀ bl, BlameLine b n = .ok bl → b.blames.get? (n - 1).toNat = some bl) := by
  simp only [BlameLine]
  split
  next h =>
    constructor
    · exact ⟨fun _ => by omega, fun _ => ⟨_, rfl⟩⟩
    · intro bl hbl
      simp at hbl
  next h =>
    constructor
    · constructor
      · intro ⟨e, he⟩
        simp at he
      · intro hcond
        omega
    · intro bl hbl
      have hbl2 : b.blames.get ⟨(n - 1).toNat, by omega⟩ = bl := by
        simpa using hbl
      rw [← hbl2]
      exact List.get?_eq_get _

/-- A concrete two-line blame table. -/
def gbEx : GitBlame :=
  ⟨[⟨"Ada".toList, 5⟩, ⟨"Alan".toList, 0⟩]⟩

/-- Witness for C7 at the concrete table and line number 2. -/
theorem BlameLine_range_witness :
    ((∃ e, BlameLine gbEx 2 = .error e) ↔
      ((2 : Int) < 1 ∨ (gbEx.blames.length : Int) < 2)) ∧
    (∀ bl, BlameLine gbEx 2 = .ok bl →
      gbEx.blames.get? ((2 : Int) - 1).toNat = some bl) :=
  BlameLine_range gbEx 2

/-! ## Claim C8: which entries get a job enqueued -/

/-- A symbolic-link directory entry: not a directory, not a regular file. -/
def symlinkEntry : DirEntry := ⟨.symlink⟩

/-- C8 counterexample: the walker enqueues a job for a symlink entry, an
entry that is not a regular file — contradicting "a ScanJob is enqueued
iff the entry is a regular file". -/
theorem walk_enqueues_nonregular :
    (walk Re.eps ("s".toList) symlinkEntry none).2.length = 1 ∧
    symlinkEntry.isRegular = false := by
  constructor
  · rfl
  · rfl

/-- C8 amended: on an error-free entry the walker enqueues a job iff the
entry is not a directory — directories are never enqueued, every
non-directory entry (regular or not) is enqueued with the entry's path and
the shared pattern — and an entry delivered with a traversal error
enqueues nothing. -/
theorem walk_enqueue_iff_not_dir (regex : Re) (p : GoStr) (d : DirEntry)
    (e : GoStr) :
    ((walk regex p d none).2 ≠ [] ↔ d.IsDir = false) ∧
    (d.IsDir = false → (walk regex p d none).2 = [⟨p, regex⟩]) ∧
    (walk regex p d (some e)).2 = [] := by
  refine ⟨?_, ?_, rfl⟩
  · cases hd : d.IsDir <;> simp [walk, hd]
  · intro hd
    simp [walk, hd]

/-- Witness for C8 (amended) at a concrete regular-file entry. -/
theorem walk_enqueue_iff_not_dir_witness :
    ((walk Re.eps ("a".toList) ⟨.regular⟩ none).2 ≠ [] ↔
      DirEntry.IsDir ⟨.regular⟩ = false) ∧
    (DirEntry.IsDir ⟨.regular⟩ = false →
      (walk Re.eps ("a".toList) ⟨.regular⟩ none).2 = [⟨"a".toList, Re.eps⟩]) ∧
    (walk Re.eps ("a".toList) ⟨.regular⟩ (some ("err".toList))).2 = [] :=
  walk_enqueue_iff_not_dir Re.eps ("a".toList) ⟨.regular⟩ ("err".toList)

/-! ## Claim C9: blame failure is a soft failure in the result sink -/

/-- C9: when `BlameFile` fails for a result's path, `PrintResult` still
presents every matched line of that file, each without blame information,
and goes on to process the remaining results. -/
theorem blame_failure_soft (blameFn : GoStr → Except GoStr GitBlame)
    (r : searchResult) (e : GoStr) (hfail : blameFn r.Path = .error e)
    (rs : List searchResult) :
    printResult blameFn r =
      OutLine.header r.Path r.Lines.length ::
        (r.Lines.map fun l => OutLine.matched l.n l.tag l.text none)
        ++ [OutLine.blank] ∧
    printAll blameFn (r :: rs) = printResult blameFn r ++ printAll blameFn rs := by
  refine ⟨?_, rfl⟩
  simp only [printResult, hfail]

/-- A blame runner that always fails (no repository anywhere). -/
def blameFnFail : GoStr → Except GoStr GitBlame :=
  fun _ => .error ("git blame failed".toList)

/-- Witness for C9 at a concrete result. -/
theorem blame_failure_soft_witness :
    printResult blameFnFail rEx =
      OutLine.header rEx.Path rEx.Lines.length ::
        (rEx.Lines.map fun l => OutLine.matched l.n l.tag l.text none)
        ++ [OutLine.blank] ∧
    printAll blameFnFail [rEx] = printResult blameFnFail rEx ++ printAll blameFnFail [] :=
  blame_failure_soft blameFnFail rEx ("git blame failed".toList) rfl []

/-! ## Claim C10: author-name truncation -/

theorem truncateWordsRev_forall2 (m : Int) :
    ∀ (t : Int) (l : List GoStr),
      List.Forall₂ (fun tw w => tw = w ∨ tw = w.take 1)
        (truncateWordsRev t m l) l := by
  intro t l
  induction l generalizing t with
  | nil => simp [truncateWordsRev]
  | cons w ws ih =>
    simp only [truncateWordsRev]
    split
    · exact List.Forall₂.cons (Or.inr rfl) (ih _)
    · exact List.Forall₂.cons (Or.inl rfl) (ih _)

theorem truncateWordsRev_of_le (m : Int) :
    ∀ (t : Int) (l : List GoStr), t ≤ m → truncateWordsRev t m l = l := by
  intro t l ht
  induction l with
  | nil => simp [truncateWordsRev]
  | cons w ws ih =>
    simp only [truncateWordsRev]
    rw [if_neg (by omega)]
    rw [ih]

/-- C10: every author name parsed from a blame stream goes through
`truncateName` with the 22-character limit; the truncation turns the word
list into a word list of the same length in which each word is either kept
or replaced by its first character, rejoined with single spaces; and a
name of length at most 22 whose words are separated by single spaces comes
back unchanged. -/
theorem truncateName_words (name raw : GoStr) :
    parseGitBlame [authorPfx ++ raw] =
      [⟨truncateName raw maxAuthorLength, 0⟩] ∧
    truncateName name maxAuthorLength =
      joinSp ((truncateWordsRev (name.length : Int) maxAuthorLength
        (goFields name).reverse).reverse) ∧
    List.Forall₂ (fun tw w => tw = w ∨ tw = w.take 1)
      ((truncateWordsRev (name.length : Int) maxAuthorLength
        (goFields name).reverse).reverse)
      (goFields name) ∧
    ((name.length : Int) ≤ maxAuthorLength → name = joinSp (goFields name) →
      truncateName name maxAuthorLength = name) := by
  refine ⟨?_, rfl, ?_, ?_⟩
  · have hpfx : goHasPfx (authorPfx ++ raw) authorPfx = true := by
      simp [goHasPfx, List.take_left]
    have htrim : goTrimPfx (authorPfx ++ raw) authorPfx = raw := by
      simp [goTrimPfx, hpfx, List.drop_left]
    simp [parseGitBlame, pgbStep, hpfx, htrim]
  · have h := List.forall₂_reverse_iff.mpr
      (truncateWordsRev_forall2 maxAuthorLength (name.length : Int)
        (goFields name).reverse)
    rwa [List.reverse_reverse] at h
  · intro h1 h2
    show joinSp ((truncateWordsRev (name.length : Int) maxAuthorLength
      (goFields name).reverse).reverse) = name
    rw [truncateWordsRev_of_le maxAuthorLength (name.length : Int)
      (goFields name).reverse h1, List.reverse_reverse, ← h2]

/-- Witness for C10 at concrete names: a short single-spaced name is kept
verbatim. -/
theorem truncateName_words_witness :
    parseGitBlame [authorPfx ++ "Ada Lovelace".toList] =
      [⟨truncateName ("Ada Lovelace".toList) maxAuthorLength, 0⟩] ∧
    truncateName ("Ada Lovelace".toList) maxAuthorLength =
      joinSp ((truncateWordsRev (("Ada Lovelace".toList : GoStr).length : Int)
        maxAuthorLength (goFields ("Ada Lovelace".toList)).reverse).reverse) ∧
    List.Forall₂ (fun tw w => tw = w ∨ tw = w.take 1)
      ((truncateWordsRev (("Ada Lovelace".toList : GoStr).length : Int)
        maxAuthorLength (goFields ("Ada Lovelace".toList)).reverse).reverse)
      (goFields ("Ada Lovelace".toList)) ∧
    ((("Ada Lovelace".toList : GoStr).length : Int) ≤ maxAuthorLength →
      "Ada Lovelace".toList = joinSp (goFields ("Ada Lovelace".toList)) →
      truncateName ("Ada Lovelace".toList) maxAuthorLength = "Ada Lovelace".toList) :=
  truncateName_words ("Ada Lovelace".toList) ("Ada Lovelace".toList)
